import Mathlib

/-!
Verification of the STDP synapse model `src/models/stdp_connection.h`
(class `nest::STDPConnection`).

The C++ `double` arithmetic is modelled over the real numbers `ℝ`:
`std::pow` becomes `Real.rpow` (written `x ^ y`), `std::exp` becomes
`Real.exp`.  The synapse's data members (lines 188-196 of the source)
form the structure `STDPConnection`; the private update rules
`facilitate_` / `depress_` (lines 172-186), the delivery routine `send`
(lines 207-256), the constructor (lines 259-271) and the configuration
marshalling `get_status` / `set_status` (lines 288-315) are translated
below.  The post-synaptic neuron (class `Node`, not part of this source
file) is abstracted by `Target`, exposing exactly the two members `send`
consumes: `get_history` and `get_K_value`.
-/

namespace nest

/-- Data members of `STDPConnection` (source lines 188-196): the mutable
weight, the five plasticity parameters plus `Wmax_`, and the
pre-synaptic eligibility trace `Kplus_`. -/
structure STDPConnection where
  weight_ : ℝ
  tau_plus_ : ℝ
  lambda_ : ℝ
  alpha_ : ℝ
  mu_plus_ : ℝ
  mu_minus_ : ℝ
  Wmax_ : ℝ
  Kplus_ : ℝ

/-- Default constructor (source lines 259-271): weight 1.0, tau_plus 20.0,
lambda 0.01, alpha 1.0, mu_plus 1.0, mu_minus 1.0, Wmax 100.0, Kplus 0.0. -/
noncomputable def STDPConnection.init : STDPConnection :=
  { weight_ := 1
    tau_plus_ := 20
    lambda_ := 1 / 100
    alpha_ := 1
    mu_plus_ := 1
    mu_minus_ := 1
    Wmax_ := 100
    Kplus_ := 0 }

/-- `facilitate_(w, kplus)` (source lines 172-178):
`norm_w = (w / Wmax_) + (lambda_ * pow(1.0 - w / Wmax_, mu_plus_) * kplus)`,
returning `norm_w * Wmax_` if `norm_w < 1.0`, else `Wmax_`. -/
noncomputable def facilitate_ (s : STDPConnection) (w kplus : ℝ) : ℝ :=
  let norm_w := w / s.Wmax_ + s.lambda_ * (1 - w / s.Wmax_) ^ s.mu_plus_ * kplus
  if norm_w < 1 then norm_w * s.Wmax_ else s.Wmax_

/-- `depress_(w, kminus)` (source lines 180-186):
`norm_w = (w / Wmax_) - (alpha_ * lambda_ * pow(w / Wmax_, mu_minus_) * kminus)`,
returning `norm_w * Wmax_` if `norm_w > 0.0`, else `0.0`. -/
noncomputable def depress_ (s : STDPConnection) (w kminus : ℝ) : ℝ :=
  let norm_w := w / s.Wmax_ - s.alpha_ * s.lambda_ * (w / s.Wmax_) ^ s.mu_minus_ * kminus
  if norm_w > 0 then norm_w * s.Wmax_ else 0

/-- `set_weight` (source lines 165-169): overwrites `weight_` only. -/
def set_weight (s : STDPConnection) (w : ℝ) : STDPConnection :=
  { s with weight_ := w }

/-- The post-synaptic neuron (`Node* target`), abstracted to the two
members `send` reads: `get_history(t1, t2, &start, &finish)` is modelled
as the finite list of recorded spike timestamps in the window `(t1, t2]`
in the iterator's (ascending-time) order, and `get_K_value(t)` as the
decayed post-synaptic trace at time `t`. -/
structure Target where
  get_history : ℝ → ℝ → List ℝ
  get_K_value : ℝ → ℝ

/-- The `while (start != finish)` loop of `send` (source lines 236-243):
each iteration reads one history record `t`, advances the iterator, skips
the record when `minus_dt = t_lastspike - (t + dendritic_delay)` equals 0,
and otherwise updates the running weight with
`facilitate_(w, Kplus_ * exp(minus_dt / tau_plus_))`.  `Kplus_` and the
parameters are not modified by the loop, so they are read from `s`. -/
noncomputable def facilitationLoop (s : STDPConnection)
    (t_lastspike dendritic_delay : ℝ) : List ℝ → ℝ → ℝ
  | [], w => w
  | t :: rest, w =>
    if t_lastspike - (t + dendritic_delay) = 0 then
      facilitationLoop s t_lastspike dendritic_delay rest w
    else
      facilitationLoop s t_lastspike dendritic_delay rest
        (facilitate_ s w
          (s.Kplus_ * Real.exp ((t_lastspike - (t + dendritic_delay)) / s.tau_plus_)))

/-- `send` (source lines 207-256).  `t_spike` is the event stamp,
`dendritic_delay` the connection delay (`get_delay()`), `target` the
post-synaptic node.  The history window is
`(t_lastspike - dendritic_delay, t_spike - dendritic_delay]` (line 233);
facilitation is folded over it (lines 236-243), one depression step uses
`get_K_value(t_spike - dendritic_delay)` (line 246), the outgoing event
carries the updated weight (line 249, not modelled beyond the weight),
and the trace is advanced last (line 255). -/
noncomputable def send (s : STDPConnection) (target : Target)
    (t_spike t_lastspike dendritic_delay : ℝ) : STDPConnection :=
  let hist := target.get_history (t_lastspike - dendritic_delay) (t_spike - dendritic_delay)
  let w1 := facilitationLoop s t_lastspike dendritic_delay hist s.weight_
  let w2 := depress_ s w1 (target.get_K_value (t_spike - dendritic_delay))
  { s with
    weight_ := w2
    Kplus_ := s.Kplus_ * Real.exp ((t_lastspike - t_spike) / s.tau_plus_) + 1 }

/-- A value stored in a `DictionaryDatum`: the source stores `double_t`
parameters and one `long_t` (`size_of`). -/
inductive DictValue where
  | d (x : ℝ)
  | l (n : ℤ)

/-- `DictionaryDatum`, modelled as an association list from key names to
values; a fresh binding for a key shadows an older one, matching
overwrite semantics of `def<>`. -/
abbrev DictionaryDatum := List (String × DictValue)

/-- `def<T>(d, key, value)`: bind `key` to `value` in the dictionary. -/
def dictInsert (k : String) (v : DictValue) (dict : DictionaryDatum) : DictionaryDatum :=
  (k, v) :: dict

/-- `updateValue<double_t>(d, key, ref)`: if `key` is bound to a double in
the dictionary, return that value, otherwise keep the old value. -/
def updateValueD (dict : DictionaryDatum) (k : String) (old : ℝ) : ℝ :=
  match dict.lookup k with
  | some (DictValue.d x) => x
  | _ => old

/-- `sizeof(*this)` reported under `size_of` by `get_status` (source
line 300); platform-dependent in C++, modelled as an abstract constant. -/
def stdp_size_of : ℤ := 64

/-- `get_status` (source lines 288-301): a `const` member, it writes
`weight`, `tau_plus`, `lambda`, `alpha`, `mu_plus`, `mu_minus`, `Wmax`
and the diagnostic `size_of` into the dictionary (in that order) and
leaves the connection state untouched.  `ConnectionBase::get_status`
(line 292) concerns base-class fields outside this source file and is
not modelled.  Note the trace `Kplus_` is not written. -/
def get_status (s : STDPConnection) (dict : DictionaryDatum) : DictionaryDatum :=
  dictInsert "size_of" (DictValue.l stdp_size_of)
    (dictInsert "Wmax" (DictValue.d s.Wmax_)
      (dictInsert "mu_minus" (DictValue.d s.mu_minus_)
        (dictInsert "mu_plus" (DictValue.d s.mu_plus_)
          (dictInsert "alpha" (DictValue.d s.alpha_)
            (dictInsert "lambda" (DictValue.d s.lambda_)
              (dictInsert "tau_plus" (DictValue.d s.tau_plus_)
                (dictInsert "weight" (DictValue.d s.weight_) dict)))))))

/-- `set_status` (source lines 303-315): updates `weight_` and the six
parameters from the dictionary when present; `Kplus_` has no key and is
never touched.  `ConnectionBase::set_status` (line 307) is outside this
source file and is not modelled. -/
def set_status (s : STDPConnection) (dict : DictionaryDatum) : STDPConnection :=
  { s with
    weight_ := updateValueD dict "weight" s.weight_
    tau_plus_ := updateValueD dict "tau_plus" s.tau_plus_
    lambda_ := updateValueD dict "lambda" s.lambda_
    alpha_ := updateValueD dict "alpha" s.alpha_
    mu_plus_ := updateValueD dict "mu_plus" s.mu_plus_
    mu_minus_ := updateValueD dict "mu_minus" s.mu_minus_
    Wmax_ := updateValueD dict "Wmax" s.Wmax_ }

/-- A target with empty history and zero post-synaptic trace, used to
instantiate theorems at concrete inputs. -/
def trivTarget : Target :=
  { get_history := fun _ _ => []
    get_K_value := fun _ => 0 }

/-!  Helper lemmas about the pure weight-update rules. -/

/-- `facilitate_` keeps the weight in `[0, Wmax_]` whenever it starts
there, the step size is non-negative and the trace argument is
non-negative. -/
theorem facilitate_mem_Icc (s : STDPConnection) (w k : ℝ) (hW : 0 < s.Wmax_)
    (hl : 0 ≤ s.lambda_) (hw0 : 0 ≤ w) (hwW : w ≤ s.Wmax_) (hk : 0 ≤ k) :
    0 ≤ facilitate_ s w k ∧ facilitate_ s w k ≤ s.Wmax_ := by
  have h1 : 0 ≤ w / s.Wmax_ := div_nonneg hw0 hW.le
  have h2 : w / s.Wmax_ ≤ 1 := (div_le_one hW).mpr hwW
  have h3 : 0 ≤ (1 - w / s.Wmax_) ^ s.mu_plus_ := Real.rpow_nonneg (by linarith) _
  have h4 : 0 ≤ w / s.Wmax_ + s.lambda_ * (1 - w / s.Wmax_) ^ s.mu_plus_ * k :=
    add_nonneg h1 (mul_nonneg (mul_nonneg hl h3) hk)
  simp only [facilitate_]
  split_ifs with h
  · exact ⟨mul_nonneg h4 hW.le, by nlinarith⟩
  · exact ⟨hW.le, le_refl _⟩

/-- `depress_` keeps the weight in `[0, Wmax_]` whenever it starts there,
the step sizes are non-negative and the trace argument is non-negative. -/
theorem depress_mem_Icc (s : STDPConnection) (w k : ℝ) (hW : 0 < s.Wmax_)
    (ha : 0 ≤ s.alpha_) (hl : 0 ≤ s.lambda_)
    (hw0 : 0 ≤ w) (hwW : w ≤ s.Wmax_) (hk : 0 ≤ k) :
    0 ≤ depress_ s w k ∧ depress_ s w k ≤ s.Wmax_ := by
  have h1 : 0 ≤ w / s.Wmax_ := div_nonneg hw0 hW.le
  have h2 : w / s.Wmax_ ≤ 1 := (div_le_one hW).mpr hwW
  have h3 : 0 ≤ (w / s.Wmax_) ^ s.mu_minus_ := Real.rpow_nonneg h1 _
  have h4 : w / s.Wmax_ - s.alpha_ * s.lambda_ * (w / s.Wmax_) ^ s.mu_minus_ * k ≤
      w / s.Wmax_ :=
    sub_le_self _ (mul_nonneg (mul_nonneg (mul_nonneg ha hl) h3) hk)
  simp only [depress_]
  split_ifs with h
  · exact ⟨mul_nonneg h.le hW.le, by nlinarith⟩
  · exact ⟨le_refl _, hW.le⟩

/-- The facilitation loop keeps the running weight in `[0, Wmax_]` when
the synapse trace `Kplus_` is non-negative. -/
theorem facilitationLoop_mem_Icc (s : STDPConnection) (t_lastspike dendritic_delay : ℝ)
    (hist : List ℝ) (w : ℝ) (hW : 0 < s.Wmax_) (hl : 0 ≤ s.lambda_)
    (hK : 0 ≤ s.Kplus_) (hw0 : 0 ≤ w) (hwW : w ≤ s.Wmax_) :
    0 ≤ facilitationLoop s t_lastspike dendritic_delay hist w ∧
      facilitationLoop s t_lastspike dendritic_delay hist w ≤ s.Wmax_ := by
  induction hist generalizing w with
  | nil => exact ⟨hw0, hwW⟩
  | cons t rest ih =>
    simp only [facilitationLoop]
    split_ifs with h
    · exact ih w hw0 hwW
    · have hk : 0 ≤ s.Kplus_ *
          Real.exp ((t_lastspike - (t + dendritic_delay)) / s.tau_plus_) :=
        mul_nonneg hK (Real.exp_pos _).le
      obtain ⟨a, b⟩ := facilitate_mem_Icc s w _ hW hl hw0 hwW hk
      exact ih _ a b

/-- C1: for every delivery starting from a state with `0 ≤ weight ≤ Wmax`,
with valid parameters (`Wmax > 0`, `lambda > 0`, `alpha ≥ 0`,
`mu_plus ≥ 0`, `mu_minus ≥ 0`), a non-negative synapse trace and a
non-negative post-synaptic trace from the history provider, the weight
after the delivery satisfies `0 ≤ weight ≤ Wmax`. -/
theorem send_weight_bounds (s : STDPConnection) (target : Target)
    (t_spike t_lastspike dendritic_delay : ℝ)
    (hW : 0 < s.Wmax_) (hl : 0 < s.lambda_) (ha : 0 ≤ s.alpha_)
    (hmp : 0 ≤ s.mu_plus_) (hmm : 0 ≤ s.mu_minus_)
    (hw0 : 0 ≤ s.weight_) (hwW : s.weight_ ≤ s.Wmax_) (hK : 0 ≤ s.Kplus_)
    (hKv : 0 ≤ target.get_K_value (t_spike - dendritic_delay)) :
    0 ≤ (send s target t_spike t_lastspike dendritic_delay).weight_ ∧
      (send s target t_spike t_lastspike dendritic_delay).weight_ ≤ s.Wmax_ := by
  obtain ⟨a, b⟩ := facilitationLoop_mem_Icc s t_lastspike dendritic_delay
    (target.get_history (t_lastspike - dendritic_delay) (t_spike - dendritic_delay))
    s.weight_ hW hl.le hK hw0 hwW
  obtain ⟨c, d⟩ := depress_mem_Icc s _
    (target.get_K_value (t_spike - dendritic_delay)) hW ha hl.le a b hKv
  simp only [send]
  exact ⟨c, d⟩

/-- Witness for C1: the default synapse delivering its first spike at
time 10 with delay 1 to the trivial target stays within `[0, Wmax]`. -/
theorem send_weight_bounds_witness :
    0 ≤ (send STDPConnection.init trivTarget 10 0 1).weight_ ∧
      (send STDPConnection.init trivTarget 10 0 1).weight_ ≤ STDPConnection.init.Wmax_ :=
  send_weight_bounds STDPConnection.init trivTarget 10 0 1
    (by norm_num [STDPConnection.init]) (by norm_num [STDPConnection.init])
    (by norm_num [STDPConnection.init]) (by norm_num [STDPConnection.init])
    (by norm_num [STDPConnection.init]) (by norm_num [STDPConnection.init])
    (by norm_num [STDPConnection.init]) (by norm_num [STDPConnection.init])
    (by norm_num [trivTarget])

/-- C3: `facilitate_(w, k)` computes
`nw = w/Wmax + lambda * (1 - w/Wmax)^mu_plus * k` and returns `nw * Wmax`
when `nw < 1.0` (strict comparison) and `Wmax` otherwise. -/
theorem facilitate_formula (s : STDPConnection) (w k : ℝ) (hW : 0 < s.Wmax_) :
    facilitate_ s w k =
      if w / s.Wmax_ + s.lambda_ * (1 - w / s.Wmax_) ^ s.mu_plus_ * k < 1 then
        (w / s.Wmax_ + s.lambda_ * (1 - w / s.Wmax_) ^ s.mu_plus_ * k) * s.Wmax_
      else s.Wmax_ := rfl

/-- Witness for C3 at the default parameters, `w = 1`, `k = 2`. -/
theorem facilitate_formula_witness :
    facilitate_ STDPConnection.init 1 2 =
      if 1 / STDPConnection.init.Wmax_ + STDPConnection.init.lambda_ *
          (1 - 1 / STDPConnection.init.Wmax_) ^ STDPConnection.init.mu_plus_ * 2 < 1 then
        (1 / STDPConnection.init.Wmax_ + STDPConnection.init.lambda_ *
          (1 - 1 / STDPConnection.init.Wmax_) ^ STDPConnection.init.mu_plus_ * 2) *
          STDPConnection.init.Wmax_
      else STDPConnection.init.Wmax_ :=
  facilitate_formula STDPConnection.init 1 2 (by norm_num [STDPConnection.init])

/-- C4: `depress_(w, k)` computes
`nw = w/Wmax - alpha * lambda * (w/Wmax)^mu_minus * k` and returns
`nw * Wmax` when `nw > 0.0` (strict comparison) and `0.0` otherwise. -/
theorem depress_formula (s : STDPConnection) (w k : ℝ) (hW : 0 < s.Wmax_) :
    depress_ s w k =
      if w / s.Wmax_ - s.alpha_ * s.lambda_ * (w / s.Wmax_) ^ s.mu_minus_ * k > 0 then
        (w / s.Wmax_ - s.alpha_ * s.lambda_ * (w / s.Wmax_) ^ s.mu_minus_ * k) * s.Wmax_
      else 0 := rfl

/-- Witness for C4 at the default parameters, `w = 1`, `k = 2`. -/
theorem depress_formula_witness :
    depress_ STDPConnection.init 1 2 =
      if 1 / STDPConnection.init.Wmax_ - STDPConnection.init.alpha_ *
          STDPConnection.init.lambda_ *
          (1 / STDPConnection.init.Wmax_) ^ STDPConnection.init.mu_minus_ * 2 > 0 then
        (1 / STDPConnection.init.Wmax_ - STDPConnection.init.alpha_ *
          STDPConnection.init.lambda_ *
          (1 / STDPConnection.init.Wmax_) ^ STDPConnection.init.mu_minus_ * 2) *
          STDPConnection.init.Wmax_
      else 0 :=
  depress_formula STDPConnection.init 1 2 (by norm_num [STDPConnection.init])

/-- Counterexample to C9 as stated: with `Wmax = 1` (positive) and
`w = 2 > Wmax`, `facilitate_(2, 0)` clamps to `Wmax = 1 ≠ 2`, so a zero
trace argument does not leave every real `w` unchanged. -/
theorem facilitate_zero_cex :
    0 < ({ STDPConnection.init with Wmax_ := 1 } : STDPConnection).Wmax_ ∧
      facilitate_ { STDPConnection.init with Wmax_ := 1 } 2 0 ≠ 2 := by
  constructor
  · norm_num
  · simp only [facilitate_, STDPConnection.init, mul_zero, add_zero]
    norm_num

/-- C9 amended: for `0 ≤ w ≤ Wmax` (the weight invariant range) and
`Wmax > 0`, a zero trace argument leaves the weight unchanged:
`facilitate_(w, 0) = w` and `depress_(w, 0) = w`. -/
theorem zero_trace_identity (s : STDPConnection) (w : ℝ) (hW : 0 < s.Wmax_)
    (hw0 : 0 ≤ w) (hwW : w ≤ s.Wmax_) :
    facilitate_ s w 0 = w ∧ depress_ s w 0 = w := by
  have hne : s.Wmax_ ≠ 0 := ne_of_gt hW
  constructor
  · simp only [facilitate_, mul_zero, add_zero]
    split_ifs with h
    · exact div_mul_cancel₀ w hne
    · have h1 : w / s.Wmax_ ≤ 1 := (div_le_one hW).mpr hwW
      have h2 : w / s.Wmax_ = 1 := le_antisymm h1 (not_lt.mp h)
      have h3 : w = s.Wmax_ := by
        have := (div_eq_iff hne).mp h2
        simpa using this
      exact h3.symm
  · simp only [depress_, mul_zero, sub_zero]
    split_ifs with h
    · exact div_mul_cancel₀ w hne
    · have h1 : 0 ≤ w / s.Wmax_ := div_nonneg hw0 hW.le
      have h2 : w / s.Wmax_ = 0 := le_antisymm (not_lt.mp h) h1
      have h3 : w = 0 := by
        rcases div_eq_zero_iff.mp h2 with h3 | h3
        · exact h3
        · exact absurd h3 hne
      exact h3.symm

/-- Witness for the amended C9: at the default parameters with `w = 50`,
both rules return `50` on a zero trace argument. -/
theorem zero_trace_identity_witness :
    facilitate_ STDPConnection.init 50 0 = 50 ∧ depress_ STDPConnection.init 50 0 = 50 :=
  zero_trace_identity STDPConnection.init 50 (by norm_num [STDPConnection.init])
    (by norm_num) (by norm_num [STDPConnection.init])

/-- Step function written from the specification's wording (§4.3 step 2):
for each record with timestamp `t`, in order, compute
`minus_dt = t_lastspike - (t + d)`; skip the record when `minus_dt == 0`;
otherwise `weight ← facilitate(weight, trace * exp(minus_dt / tau_plus))`.
It is compared against the source's loop `facilitationLoop`. -/
noncomputable def specFacilitationStep (s : STDPConnection)
    (t_lastspike dendritic_delay : ℝ) (w t : ℝ) : ℝ :=
  if t_lastspike - (t + dendritic_delay) = 0 then w
  else
    facilitate_ s w
      (s.Kplus_ * Real.exp ((t_lastspike - (t + dendritic_delay)) / s.tau_plus_))

/-- The source's while loop is a left fold of the specification's step
function over the history records in iterator order. -/
theorem facilitationLoop_eq_foldl (s : STDPConnection)
    (t_lastspike dendritic_delay : ℝ) (hist : List ℝ) (w : ℝ) :
    facilitationLoop s t_lastspike dendritic_delay hist w =
      hist.foldl (specFacilitationStep s t_lastspike dendritic_delay) w := by
  induction hist generalizing w with
  | nil => rfl
  | cons t rest ih =>
    simp only [facilitationLoop, List.foldl_cons, specFacilitationStep]
    split_ifs with h
    · exact ih w
    · exact ih _

/-- C2: with the history window's records supplied in non-decreasing
timestamp order, the weight after the facilitation phase equals a left
fold of the facilitation step over those records (each step using the
already-updated weight and `k = trace * exp(minus_dt / tau_plus)` with
`minus_dt = t_lastspike - (t + d)`), and the delivered weight applies
exactly one depression step to the fold's result, with `k` the target's
decayed trace evaluated at `t_spike - d`. -/
theorem send_foldl_depress (s : STDPConnection) (target : Target)
    (t_spike t_lastspike dendritic_delay : ℝ)
    (hsorted : List.Sorted (· ≤ ·)
      (target.get_history (t_lastspike - dendritic_delay) (t_spike - dendritic_delay))) :
    facilitationLoop s t_lastspike dendritic_delay
        (target.get_history (t_lastspike - dendritic_delay) (t_spike - dendritic_delay))
        s.weight_ =
      (target.get_history (t_lastspike - dendritic_delay)
          (t_spike - dendritic_delay)).foldl
        (specFacilitationStep s t_lastspike dendritic_delay) s.weight_ ∧
      (send s target t_spike t_lastspike dendritic_delay).weight_ =
        depress_ s
          ((target.get_history (t_lastspike - dendritic_delay)
              (t_spike - dendritic_delay)).foldl
            (specFacilitationStep s t_lastspike dendritic_delay) s.weight_)
          (target.get_K_value (t_spike - dendritic_delay)) := by
  refine ⟨facilitationLoop_eq_foldl s t_lastspike dendritic_delay _ s.weight_, ?_⟩
  simp only [send]
  rw [facilitationLoop_eq_foldl]

/-- Witness for C2: the default synapse delivering at time 10 with delay 1
to the trivial (empty-history, hence sorted) target. -/
theorem send_foldl_depress_witness :
    facilitationLoop STDPConnection.init 0 1
        (trivTarget.get_history (0 - 1) (10 - 1)) STDPConnection.init.weight_ =
      (trivTarget.get_history (0 - 1) (10 - 1)).foldl
        (specFacilitationStep STDPConnection.init 0 1) STDPConnection.init.weight_ ∧
      (send STDPConnection.init trivTarget 10 0 1).weight_ =
        depress_ STDPConnection.init
          ((trivTarget.get_history (0 - 1) (10 - 1)).foldl
            (specFacilitationStep STDPConnection.init 0 1) STDPConnection.init.weight_)
          (trivTarget.get_K_value (10 - 1)) :=
  send_foldl_depress STDPConnection.init trivTarget 10 0 1 (by simp [trivTarget])

/-- C5: a history record whose delay-shifted timestamp hits `t_lastspike`
exactly (`minus_dt == 0`) is consumed by the loop but applies no
facilitation: removing it from anywhere in the window leaves the running
weight identical, the recursion (the source's `while` loop, which
advances the iterator before the `continue`) terminates, and every other
record is still processed exactly once. -/
theorem coincident_record_skipped (s : STDPConnection)
    (t_lastspike dendritic_delay t0 : ℝ) (l1 l2 : List ℝ) (w : ℝ)
    (h : t_lastspike - (t0 + dendritic_delay) = 0) :
    facilitationLoop s t_lastspike dendritic_delay (l1 ++ t0 :: l2) w =
      facilitationLoop s t_lastspike dendritic_delay (l1 ++ l2) w := by
  induction l1 generalizing w with
  | nil =>
    simp only [List.nil_append, facilitationLoop]
    rw [if_pos h]
  | cons t rest ih =>
    simp only [List.cons_append, facilitationLoop]
    split_ifs with h1
    · exact ih w
    · exact ih _

/-- Witness for C5: with `t_lastspike = 5` and delay 1, a record at
timestamp 4 (so `minus_dt = 5 - (4 + 1) = 0`) leaves the weight
untouched. -/
theorem coincident_record_skipped_witness :
    facilitationLoop STDPConnection.init 5 1 ([] ++ 4 :: []) 1 =
      facilitationLoop STDPConnection.init 5 1 ([] ++ []) 1 :=
  coincident_record_skipped STDPConnection.init 5 1 4 [] [] 1 (by norm_num)

/-- C6: every delivery ends by setting the trace to
`trace * exp((t_lastspike - t_spike) / tau_plus) + 1.0`, and when the
history window is empty the delivered weight is exactly one depression
step applied to the unchanged weight (facilitation is a no-op fold over
zero elements). -/
theorem send_trace_update (s : STDPConnection) (target : Target)
    (t_spike t_lastspike dendritic_delay : ℝ) :
    (send s target t_spike t_lastspike dendritic_delay).Kplus_ =
      s.Kplus_ * Real.exp ((t_lastspike - t_spike) / s.tau_plus_) + 1 ∧
      (target.get_history (t_lastspike - dendritic_delay)
          (t_spike - dendritic_delay) = [] →
        (send s target t_spike t_lastspike dendritic_delay).weight_ =
          depress_ s s.weight_ (target.get_K_value (t_spike - dendritic_delay))) := by
  refine ⟨rfl, fun hemp => ?_⟩
  simp only [send, hemp, facilitationLoop]

/-- Witness for C6: the default synapse delivering at time 10 with delay 1
to the trivial target, whose history window is empty. -/
theorem send_trace_update_witness :
    (send STDPConnection.init trivTarget 10 0 1).Kplus_ =
      STDPConnection.init.Kplus_ *
        Real.exp ((0 - 10) / STDPConnection.init.tau_plus_) + 1 ∧
      (send STDPConnection.init trivTarget 10 0 1).weight_ =
        depress_ STDPConnection.init STDPConnection.init.weight_
          (trivTarget.get_K_value (10 - 1)) :=
  ⟨(send_trace_update STDPConnection.init trivTarget 10 0 1).1,
    (send_trace_update STDPConnection.init trivTarget 10 0 1).2 rfl⟩

/-- C7: exporting the configuration with `get_status` and re-importing
the exported key set into the same synapse with `set_status` reproduces
an identical state: `weight_`, `tau_plus_`, `lambda_`, `alpha_`,
`mu_plus_`, `mu_minus_`, `Wmax_` and the trace `Kplus_` are all
unchanged. -/
theorem status_roundtrip (s : STDPConnection) (dict : DictionaryDatum) :
    set_status s (get_status s dict) = s := rfl

/-- Counterexample to C8 as stated: with the trace `Kplus_ = 42` and all
other fields pairwise different from 42, the dictionary written by
`get_status` holds exactly the seven parameter keys and `size_of` — no
entry carries the trace value 42, so `get_status` does not return the
current trace. -/
theorem get_status_no_trace_cex :
    get_status (⟨1, 2, 3, 4, 5, 6, 7, 42⟩ : STDPConnection) [] =
      [("size_of", DictValue.l stdp_size_of), ("Wmax", DictValue.d 7),
        ("mu_minus", DictValue.d 6), ("mu_plus", DictValue.d 5),
        ("alpha", DictValue.d 4), ("lambda", DictValue.d 3),
        ("tau_plus", DictValue.d 2), ("weight", DictValue.d 1)] ∧
      DictValue.d 42 ∉
        (get_status (⟨1, 2, 3, 4, 5, 6, 7, 42⟩ : STDPConnection) []).map Prod.snd := by
  refine ⟨rfl, ?_⟩
  simp only [get_status, dictInsert, List.map_cons, List.map_nil, List.mem_cons,
    List.not_mem_nil, or_false]
  push_neg
  refine ⟨?_, ?_, ?_, ?_, ?_, ?_, ?_, ?_⟩ <;> simp

/-- C8 amended: `get_status` reports the current weight, the five
plasticity parameters, `Wmax` and the read-only `size_of` diagnostic —
exactly those keys and, in particular, not the trace — and, being a
`const` member modelled as a pure function, leaves the synapse state
unchanged. -/
theorem get_status_report (s : STDPConnection) (dict : DictionaryDatum) :
    (get_status s dict).lookup "weight" = some (DictValue.d s.weight_) ∧
      (get_status s dict).lookup "tau_plus" = some (DictValue.d s.tau_plus_) ∧
      (get_status s dict).lookup "lambda" = some (DictValue.d s.lambda_) ∧
      (get_status s dict).lookup "alpha" = some (DictValue.d s.alpha_) ∧
      (get_status s dict).lookup "mu_plus" = some (DictValue.d s.mu_plus_) ∧
      (get_status s dict).lookup "mu_minus" = some (DictValue.d s.mu_minus_) ∧
      (get_status s dict).lookup "Wmax" = some (DictValue.d s.Wmax_) ∧
      (get_status s dict).lookup "size_of" = some (DictValue.l stdp_size_of) ∧
      (get_status s dict).map Prod.fst =
        "size_of" :: "Wmax" :: "mu_minus" :: "mu_plus" :: "alpha" :: "lambda" ::
          "tau_plus" :: "weight" :: dict.map Prod.fst :=
  ⟨rfl, rfl, rfl, rfl, rfl, rfl, rfl, rfl, rfl⟩

/-- The operations a user can apply to one synapse after construction:
reconfiguration, direct weight assignment, and spike delivery. -/
inductive Op where
  | opSetStatus (dict : DictionaryDatum)
  | opSetWeight (w : ℝ)
  | opSend (target : Target) (t_spike t_lastspike dendritic_delay : ℝ)

/-- Apply one operation to the synapse state. -/
noncomputable def applyOp (s : STDPConnection) : Op → STDPConnection
  | Op.opSetStatus dict => set_status s dict
  | Op.opSetWeight w => set_weight s w
  | Op.opSend target t_spike t_lastspike dendritic_delay =>
    send s target t_spike t_lastspike dendritic_delay

/-- Apply a sequence of operations, left to right. -/
noncomputable def run (s : STDPConnection) (ops : List Op) : STDPConnection :=
  ops.foldl applyOp s

/-- Each operation keeps the trace non-negative. -/
theorem applyOp_Kplus_nonneg (s : STDPConnection) (op : Op) (h : 0 ≤ s.Kplus_) :
    0 ≤ (applyOp s op).Kplus_ := by
  cases op with
  | opSetStatus dict => exact h
  | opSetWeight w => exact h
  | opSend target t_spike t_lastspike dendritic_delay =>
    simp only [applyOp, send]
    have hexp : 0 ≤ s.Kplus_ * Real.exp ((t_lastspike - t_spike) / s.tau_plus_) :=
      mul_nonneg h (Real.exp_pos _).le
    linarith

/-- Running any sequence from a state with non-negative trace keeps the
trace non-negative. -/
theorem run_Kplus_nonneg (ops : List Op) (s : STDPConnection) (h : 0 ≤ s.Kplus_) :
    0 ≤ (run s ops).Kplus_ := by
  induction ops generalizing s with
  | nil => exact h
  | cons op rest ih => exact ih (applyOp s op) (applyOp_Kplus_nonneg s op h)

/-- C10: starting from the default-constructed state (trace 0) and
applying any sequence of `set_status`, `set_weight` and `send`
operations, the trace `Kplus_` is non-negative at every point, is never
modified by `set_status` or `set_weight`, and is at least `1.0`
immediately after every `send`. -/
theorem trace_invariant (ops : List Op) :
    0 ≤ (run STDPConnection.init ops).Kplus_ ∧
      (∀ dict, (run STDPConnection.init (ops ++ [Op.opSetStatus dict])).Kplus_ =
        (run STDPConnection.init ops).Kplus_) ∧
      (∀ w, (run STDPConnection.init (ops ++ [Op.opSetWeight w])).Kplus_ =
        (run STDPConnection.init ops).Kplus_) ∧
      (∀ target t_spike t_lastspike dendritic_delay,
        1 ≤ (run STDPConnection.init
          (ops ++ [Op.opSend target t_spike t_lastspike dendritic_delay])).Kplus_) := by
  have h0 : 0 ≤ (run STDPConnection.init ops).Kplus_ :=
    run_Kplus_nonneg ops STDPConnection.init (le_refl 0)
  refine ⟨h0, fun dict => ?_, fun w => ?_, fun target t_spike t_lastspike d => ?_⟩
  · simp [run, List.foldl_append, applyOp, set_status]
  · simp [run, List.foldl_append, applyOp, set_weight]
  · have hrw : run STDPConnection.init
        (ops ++ [Op.opSend target t_spike t_lastspike d]) =
        send (run STDPConnection.init ops) target t_spike t_lastspike d := by
      simp [run, List.foldl_append, applyOp]
    rw [hrw]
    simp only [send]
    have hexp : 0 ≤ (run STDPConnection.init ops).Kplus_ *
        Real.exp ((t_lastspike - t_spike) / (run STDPConnection.init ops).tau_plus_) :=
      mul_nonneg h0 (Real.exp_pos _).le
    linarith

end nest
